import Mathlib

/-!
# munj_assignment4.c: a small shell

A shallow embedding of `src/munj_assignment4.c` (the line parser `parse_input`,
the signal handler `handle_SIGTSTP` and the body of the `while (1)` loop of
`main`) together with the properties of the specification that were checked
against it.

Conventions of the embedding:

* a C string is the list of its characters before the terminating NUL;
* `strtok` is a function of its save pointer, returned next to the token;
* the `argv` array of `struct command_line` is the list of the stores
  `argv[argc++] = ...` in order, never longer than the `MAX_ARGS + 1` slots of
  the array, and `argc` is its length; a store past the last slot is undefined
  behaviour and ends the run of the parser with an outcome of its own;
* calls into the operating system (`chdir`, `fork`, `waitpid`) take their
  results from an explicit record of replies and leave an entry in a list of
  effects.
-/

namespace Smallsh

/-! ## Constants and the command structure -/

/-- The size of the line buffer, `#define INPUT_LENGTH 2048`. -/
def INPUT_LENGTH : Nat := 2048

/-- The argument bound, `#define MAX_ARGS 512`. -/
def MAX_ARGS : Nat := 512

/-- The `struct command_line`: `argv` holds the stored arguments in order
(`argc` is its length) and, being `char *argv[MAX_ARGS + 1]`, holds no more
than `MAX_ARGS + 1` of them; a redirection target is `none` while the pointer
is NULL. -/
structure command_line where
  argv : List String
  input_file : Option String
  output_file : Option String
  is_bg : Bool
  argv_fits : argv.length ≤ MAX_ARGS + 1 := by decide
  deriving DecidableEq

/-- The field `argc`: the number of stores `argv[argc++] = ...` done so far. -/
def command_line.argc (cmd : command_line) : Nat := cmd.argv.length

/-- The result of `calloc(1, sizeof(struct command_line))`: everything zero. -/
def calloc_command_line : command_line :=
  { argv := [], input_file := none, output_file := none, is_bg := false }

/-- The store `cmd->argv[cmd->argc++] = strdup(token)`. There is no test of
`argc` in the source: with `argc ≤ MAX_ARGS` the store is inside the array;
with `argc = MAX_ARGS + 1` it lies past the last slot (on the field `argc`
itself), which is undefined behaviour: `none`. -/
def store_arg (cmd : command_line) (token : String) : Option command_line :=
  if h : cmd.argc < MAX_ARGS + 1 then
    some { cmd with argv := cmd.argv ++ [token],
                    argv_fits := by rw [List.length_append]; exact h }
  else none

/-! ## strtok -/

/-- Membership in the delimiter string `" \n"` that every call of `strtok`
in `parse_input` passes. -/
def is_delim (c : Char) : Bool := c == ' ' || c == '\n'

/-- One call of `strtok` on the save pointer `s`: skip leading delimiters;
at the end of the string the result is NULL (`none`); otherwise the token is
the longest run of non-delimiters and the save pointer moves past the
delimiter that ended it. -/
def strtok (s : List Char) : Option String × List Char :=
  match s.dropWhile is_delim with
  | [] => (none, [])
  | c :: cs =>
    (some (String.mk ((c :: cs).takeWhile (fun x => !is_delim x))),
     ((c :: cs).dropWhile (fun x => !is_delim x)).drop 1)

/-- The tokens that successive calls of `strtok` return, at most `fuel` of
them. -/
def tokens_fuel : Nat → List Char → List String
  | 0, _ => []
  | fuel + 1, s =>
    match strtok s with
    | (none, _) => []
    | (some t, rest) => t :: tokens_fuel fuel rest

/-- The whole token sequence of a line (a line has no more tokens than
characters). -/
def tokens (s : List Char) : List String := tokens_fuel s.length s

/-! ## parse_input -/

/-- How a run of `parse_input` ends: it returns the command; or it passes the
NULL that `strtok` returned to `strdup`; or it stores an argument past the last
slot of `argv`. The last two are undefined behaviour. -/
inductive parse_outcome where
  | returned (cmd : command_line)
  | strdup_null
  | argv_overflow
  deriving DecidableEq

/-- The `while (token)` loop of `parse_input`; `token` and `save` are the
current token and the save pointer of `strtok`. Every turn of the loop uses
one unit of fuel, `none` means the fuel ran out. -/
def parse_loop : Nat → Option String → List Char → command_line → Option parse_outcome
  | 0, _, _, _ => none
  | _ + 1, none, _, cmd => some (.returned cmd)
  | fuel + 1, some token, save, cmd =>
    if token = "<" then
      match strtok save with
      | (none, _) => some .strdup_null
      | (some f, save1) =>
        parse_loop fuel (strtok save1).1 (strtok save1).2 { cmd with input_file := some f }
    else if token = ">" then
      match strtok save with
      | (none, _) => some .strdup_null
      | (some f, save1) =>
        parse_loop fuel (strtok save1).1 (strtok save1).2 { cmd with output_file := some f }
    else if token = "&" then
      match strtok save with
      | (none, _) => some (.returned { cmd with is_bg := true })
      | (some _, save1) =>
        match store_arg cmd token with
        | none => some .argv_overflow
        | some cmd1 => parse_loop fuel (strtok save1).1 (strtok save1).2 cmd1
    else
      match store_arg cmd token with
      | none => some .argv_overflow
      | some cmd1 => parse_loop fuel (strtok save).1 (strtok save).2 cmd1

/-- The function `parse_input` on the line that `fgets` left in the buffer. -/
def parse_input (line : String) : Option parse_outcome :=
  parse_loop (line.data.length + 1) (strtok line.data).1 (strtok line.data).2 calloc_command_line

/-- The loop of `parse_input` read over the token sequence: the same case
distinction, a call of `strtok` taking the next token of the list. -/
def parse_tokens : List String → command_line → parse_outcome
  | [], cmd => .returned cmd
  | t :: ts, cmd =>
    if t = "<" then
      match ts with
      | [] => .strdup_null
      | f :: ts1 => parse_tokens ts1 { cmd with input_file := some f }
    else if t = ">" then
      match ts with
      | [] => .strdup_null
      | f :: ts1 => parse_tokens ts1 { cmd with output_file := some f }
    else if t = "&" then
      match ts with
      | [] => .returned { cmd with is_bg := true }
      | _ :: ts1 =>
        match store_arg cmd t with
        | none => .argv_overflow
        | some cmd1 => parse_tokens ts1 cmd1
    else
      match store_arg cmd t with
      | none => .argv_overflow
      | some cmd1 => parse_tokens ts cmd1

/-! ## handle_SIGTSTP -/

/-- What the signal handler touches: the global `foreground_only` and the
texts passed to `write(1, ...)` so far, oldest first. -/
structure signal_state where
  foreground_only : Int
  written : List String
  deriving DecidableEq

/-- The text written when the shell enters foreground-only mode. -/
def msg_entering : String := "\nEntering foreground-only mode (& is now ignored)\n: "

/-- The text written when the shell leaves foreground-only mode. -/
def msg_exiting : String := "\nExiting foreground-only mode\n: "

/-- One delivery of SIGTSTP to the shell: `handle_SIGTSTP`. -/
def handle_SIGTSTP (s : signal_state) : signal_state :=
  if s.foreground_only = 0 then
    { foreground_only := 1, written := s.written ++ [msg_entering] }
  else
    { foreground_only := 0, written := s.written ++ [msg_exiting] }

/-! ## The loop body of main -/

/-- The macros of `<sys/wait.h>` that `main` applies to the status word
stored by `waitpid`. The header belongs to the C library, not to the
repository, so the macros are a parameter of the embedding. -/
structure wait_macros where
  WIFEXITED : Int → Bool
  WEXITSTATUS : Int → Int
  WIFSIGNALED : Int → Bool
  WTERMSIG : Int → Int

/-- The macros as Linux encodes the status word: the low seven bits hold the
terminating signal (zero after a normal exit, 127 for a stopped child), the
next-to-low byte holds the exit code. -/
def linux_wait_macros : wait_macros where
  WIFEXITED := fun w => w % 128 == 0
  WEXITSTATUS := fun w => (w / 256) % 256
  WIFSIGNALED := fun w => decide (1 ≤ w % 128 ∧ w % 128 ≤ 126)
  WTERMSIG := fun w => w % 128

/-- What `fork` returns in the shell: `-1`, or the pid of the new child. -/
inductive fork_result where
  | failed
  | child_created (pid : Nat)
  deriving DecidableEq

/-- The replies of the operating system during one turn of the loop. -/
structure os_reply where
  /-- whether `chdir(cmd->argv[1])` returned 0 -/
  chdir_ok : Bool
  /-- the return value of `fork()` -/
  fork_ret : fork_result
  /-- the status word that `waitpid` stores -/
  wait_status : Int

/-- A disposition set with `signal`. -/
inductive disposition where
  | SIG_IGN
  | SIG_DFL
  deriving DecidableEq

/-- What the branch `spawnpid == 0` makes the child do before and at
`execvp`: the two calls of `signal`, the redirections, the program and its
arguments. -/
structure child_process where
  sigint : disposition
  sigtstp : disposition
  input_file : Option String
  output_file : Option String
  argv : List String
  deriving DecidableEq

/-- The observable actions of the shell process during one turn of the loop. -/
inductive effect where
  /-- the call `exit(0)` -/
  | exit_shell
  /-- the call `chdir(getenv("HOME"))` -/
  | chdir_home
  /-- the call `chdir(cmd->argv[1])` -/
  | chdir_to (path : Option String)
  /-- the call `perror(msg)` -/
  | perror (msg : String)
  /-- the call `printf("exit value %d\n", v)` -/
  | print_exit_value (v : Int)
  /-- a successful `fork()`: a child now runs as described -/
  | fork_child (pid : Nat) (child : child_process)
  /-- the call `waitpid(spawnpid, &status, 0)` -/
  | waitpid (pid : Nat)
  /-- the call `printf("terminated by signal %d\n", sig)` -/
  | print_terminated (sig : Int)
  deriving DecidableEq

/-- The state after one turn of the loop: the variable `last_status`, the
effects of the turn in order, and whether the shell called `exit`. -/
structure loop_result where
  last_status : Int
  effects : List effect
  exited : Bool
  deriving DecidableEq

/-- The test `cmd->argv[0][0] == '#'`. -/
def starts_with_hash (cmd : command_line) : Bool :=
  match cmd.argv.head? with
  | some a => a.data.head? == some '#'
  | none => false

/-- The body of the built-in chain for `cd` and `status` (lines 97 to 106):
the effects of the built-in, nothing for any other name. -/
def builtin_effects (os : os_reply) (last_status : Int) (cmd : command_line) : List effect :=
  if cmd.argv.head? = some "cd" then
    if cmd.argc = 1 then [effect.chdir_home]
    else if os.chdir_ok then [effect.chdir_to (cmd.argv.get? 1)]
    else [effect.chdir_to (cmd.argv.get? 1), effect.perror "cd failed"]
  else if cmd.argv.head? = some "status" then [effect.print_exit_value last_status]
  else []

/-- The part of the loop body after the built-in chain (lines 108 to 162):
the coercion of `is_bg`, `fork`, and the wait of the parent. `pre` holds the
effects of the turn so far. -/
def spawn (W : wait_macros) (os : os_reply) (foreground_only last_status : Int)
    (cmd : command_line) (pre : List effect) : loop_result :=
  let is_bg : Bool := if foreground_only ≠ 0 ∧ cmd.is_bg = true then false else cmd.is_bg
  if is_bg = false ∨ foreground_only = 0 then
    match os.fork_ret with
    | .failed =>
      { last_status := 1, effects := pre ++ [effect.perror "fork failed"], exited := false }
    | .child_created pid =>
      let child : child_process :=
        { sigint := if is_bg then disposition.SIG_IGN else disposition.SIG_DFL,
          sigtstp := disposition.SIG_IGN,
          input_file := cmd.input_file,
          output_file := cmd.output_file,
          argv := cmd.argv }
      if is_bg = false then
        if W.WIFEXITED os.wait_status then
          { last_status := W.WEXITSTATUS os.wait_status,
            effects := pre ++ [effect.fork_child pid child, effect.waitpid pid],
            exited := false }
        else if W.WIFSIGNALED os.wait_status then
          { last_status := W.WTERMSIG os.wait_status,
            effects := pre ++ [effect.fork_child pid child, effect.waitpid pid,
              effect.print_terminated (W.WTERMSIG os.wait_status)],
            exited := false }
        else
          { last_status := last_status,
            effects := pre ++ [effect.fork_child pid child, effect.waitpid pid],
            exited := false }
      else
        { last_status := last_status, effects := pre ++ [effect.fork_child pid child],
          exited := false }
  else
    { last_status := last_status, effects := pre, exited := false }

/-- The loop body of `main` from line 84 on, for the command that
`parse_input` returned. -/
def dispatch (W : wait_macros) (os : os_reply) (foreground_only last_status : Int)
    (cmd : command_line) : loop_result :=
  if cmd.argc = 0 ∨ starts_with_hash cmd = true then
    { last_status := last_status, effects := [], exited := false }
  else if cmd.argv.head? = some "exit" then
    { last_status := last_status, effects := [effect.exit_shell], exited := true }
  else
    spawn W os foreground_only last_status cmd (builtin_effects os last_status cmd)

/-- One turn of the `while (1)` loop of `main` on the line that `fgets`
delivered: `none` when `parse_input` ran into undefined behaviour
(`strdup(NULL)`, a store past the end of `argv`) or out of fuel, otherwise the
state after the turn. -/
def main_loop_body (W : wait_macros) (os : os_reply) (foreground_only last_status : Int)
    (line : String) : Option loop_result :=
  match parse_input line with
  | some (.returned cmd) => some (dispatch W os foreground_only last_status cmd)
  | _ => none

/-- A command that reaches the `fork` as an external program: it is not
skipped and its first argument is none of the three built-in names. -/
def is_external (cmd : command_line) : Prop :=
  cmd.argc ≠ 0 ∧ starts_with_hash cmd = false ∧ cmd.argv.head? ≠ some "exit" ∧
    cmd.argv.head? ≠ some "cd" ∧ cmd.argv.head? ≠ some "status"

/-- The effects of a turn that are termination notices. -/
def notices (r : loop_result) : List effect :=
  r.effects.filter (fun e => match e with | .print_terminated _ => true | _ => false)

/-- A token that the loop stores without looking at its neighbours. -/
def ordinary (t : String) : Prop := t ≠ "<" ∧ t ≠ ">" ∧ t ≠ "&"

instance (t : String) : Decidable (ordinary t) :=
  inferInstanceAs (Decidable (t ≠ "<" ∧ t ≠ ">" ∧ t ≠ "&"))

/-- A line of `n` one-letter arguments, each followed by one space, closed by
the newline: `a a a ... a \n`. -/
def many_args : Nat → List Char
  | 0 => ['\n']
  | n + 1 => 'a' :: ' ' :: many_args n

/-- Replies of the operating system used in the examples: `chdir` succeeds,
`fork` creates the child 100, and `waitpid` reports that the child called
`exit(1)`, as it does after a failed `execvp`. -/
def os_exec_failed : os_reply :=
  { chdir_ok := true, fork_ret := .child_created 100, wait_status := 256 }

/-- The operator that still waits for its next token when the tokens are
used up. The loop reads the tokens from left to right; an ordinary token is
read alone, while `<`, `>` and `&` are read together with the token that
follows them (as redirection target, or as the look-ahead that tells whether
the `&` is the last token). -/
def pending : List String → Option String
  | [] => none
  | [t] => if ordinary t then none else some t
  | t :: u :: rest => if ordinary t then pending (u :: rest) else pending rest

/-- The tokens that this reading stores in `argv`: every ordinary token that
is read as a token of its own, and every `&` that is so read and has a token
after it. -/
def stores : List String → List String
  | [] => []
  | [t] => if ordinary t then [t] else []
  | t :: u :: rest =>
    if ordinary t then t :: stores (u :: rest)
    else if t = "&" then t :: stores rest
    else stores rest

/-- A turn of the loop ran `cmd` in the background: its only effect is the
creation of a child that ignores SIGINT and SIGTSTP and runs the program and
arguments of `cmd` with the redirections of `cmd`; the shell did not wait. -/
def runs_in_background (cmd : command_line) (r : loop_result) : Prop :=
  ∃ pid, r.effects =
    [effect.fork_child pid
      { sigint := disposition.SIG_IGN, sigtstp := disposition.SIG_IGN,
        input_file := cmd.input_file, output_file := cmd.output_file, argv := cmd.argv }]

/-- A turn of the loop ran `cmd` in the foreground: it created a child with
the default disposition of SIGINT that runs the program and arguments of `cmd`
with the redirections of `cmd`, then waited for that child, and after the wait
printed nothing but termination notices. -/
def runs_in_foreground (cmd : command_line) (r : loop_result) : Prop :=
  ∃ pid tail, r.effects =
    effect.fork_child pid
      { sigint := disposition.SIG_DFL, sigtstp := disposition.SIG_IGN,
        input_file := cmd.input_file, output_file := cmd.output_file, argv := cmd.argv }
      :: effect.waitpid pid :: tail ∧
    ∀ e ∈ tail, ∃ sig, e = effect.print_terminated sig

/-! ## The parser and the token sequence -/

theorem strtok_nil : strtok [] = (none, []) := rfl

theorem strtok_length_lt {s : List Char} {t : String} {r : List Char}
    (h : strtok s = (some t, r)) : r.length < s.length := by
  unfold strtok at h
  have hs : (s.dropWhile is_delim).length ≤ s.length := (List.dropWhile_sublist _).length_le
  cases hd : s.dropWhile is_delim with
  | nil => rw [hd] at h; simp at h
  | cons c cs =>
    rw [hd] at h hs
    simp only [Prod.mk.injEq] at h
    have h2 := h.2
    have h3 : (List.dropWhile (fun x => !is_delim x) (c :: cs)).length ≤ (c :: cs).length :=
      (List.dropWhile_sublist _).length_le
    rw [← h2, List.length_drop]
    simp only [List.length_cons] at h3 hs
    omega

theorem tokens_fuel_stable : ∀ (n m : Nat) (s : List Char), s.length ≤ n → s.length ≤ m →
    tokens_fuel n s = tokens_fuel m s := by
  intro n
  induction n with
  | zero =>
    intro m s hn _
    have hs : s = [] := List.length_eq_zero.mp (Nat.le_zero.mp hn)
    subst hs
    cases m with
    | zero => rfl
    | succ m => simp [tokens_fuel, strtok_nil]
  | succ n ih =>
    intro m s hn hm
    cases m with
    | zero =>
      have hs : s = [] := List.length_eq_zero.mp (Nat.le_zero.mp hm)
      subst hs
      simp [tokens_fuel, strtok_nil]
    | succ m =>
      simp only [tokens_fuel]
      rcases hst : strtok s with ⟨_ | t, r⟩
      · rfl
      · have hlt := strtok_length_lt hst
        simp only
        rw [ih m r (by omega) (by omega)]

/-- The token sequence unfolds along `strtok`. -/
theorem tokens_unfold (s : List Char) :
    tokens s = match strtok s with
      | (none, _) => []
      | (some t, r) => t :: tokens r := by
  unfold tokens
  cases s with
  | nil => rfl
  | cons c cs =>
    simp only [List.length_cons, tokens_fuel]
    rcases hst : strtok (c :: cs) with ⟨_ | t, r⟩
    · rfl
    · have hlt := strtok_length_lt hst
      simp only [List.length_cons] at hlt
      simp only
      rw [tokens_fuel_stable cs.length r.length r (by omega) (le_refl _)]

theorem tokens_of_none {s r : List Char} (h : strtok s = (none, r)) : tokens s = [] := by
  rw [tokens_unfold, h]

theorem tokens_of_some {s r : List Char} {t : String} (h : strtok s = (some t, r)) :
    tokens s = t :: tokens r := by
  rw [tokens_unfold, h]

theorem store_arg_fits (cmd : command_line) (t : String) (h : cmd.argv.length < MAX_ARGS + 1) :
    ∃ c, store_arg cmd t = some c ∧ c.argv = cmd.argv ++ [t] ∧
      c.input_file = cmd.input_file ∧ c.output_file = cmd.output_file ∧ c.is_bg = cmd.is_bg :=
  ⟨_, dif_pos h, rfl, rfl, rfl, rfl⟩

theorem store_arg_full (cmd : command_line) (t : String) (h : ¬ cmd.argv.length < MAX_ARGS + 1) :
    store_arg cmd t = none :=
  dif_neg h

theorem parse_tokens_lt_cons (f : String) (ts : List String) (cmd : command_line) :
    parse_tokens ("<" :: f :: ts) cmd = parse_tokens ts { cmd with input_file := some f } := by
  simp [parse_tokens]

theorem parse_tokens_gt_cons (f : String) (ts : List String) (cmd : command_line) :
    parse_tokens (">" :: f :: ts) cmd = parse_tokens ts { cmd with output_file := some f } := by
  simp [parse_tokens]

theorem parse_tokens_amp_cons (u : String) (ts : List String) (cmd : command_line) :
    parse_tokens ("&" :: u :: ts) cmd =
      match store_arg cmd "&" with
      | none => .argv_overflow
      | some c => parse_tokens ts c := by
  simp [parse_tokens]

theorem parse_tokens_amp_last (cmd : command_line) :
    parse_tokens ["&"] cmd = .returned { cmd with is_bg := true } := by
  simp [parse_tokens]

theorem parse_tokens_ordinary_cons {t : String} (h : ordinary t) (ts : List String)
    (cmd : command_line) :
    parse_tokens (t :: ts) cmd =
      match store_arg cmd t with
      | none => .argv_overflow
      | some c => parse_tokens ts c := by
  obtain ⟨h1, h2, h3⟩ := h
  cases ts <;> simp [parse_tokens, h1, h2, h3]

theorem parse_loop_eq : ∀ (n : Nat) (s : List Char) (fuel : Nat) (cmd : command_line),
    s.length ≤ n → s.length < fuel →
    parse_loop fuel (strtok s).1 (strtok s).2 cmd = some (parse_tokens (tokens s) cmd) := by
  intro n
  induction n with
  | zero =>
    intro s fuel cmd hn hf
    have hs : s = [] := List.length_eq_zero.mp (Nat.le_zero.mp hn)
    subst hs
    obtain ⟨k, rfl⟩ : ∃ k, fuel = k + 1 := ⟨fuel - 1, by simp at hf; omega⟩
    simp [strtok_nil, parse_loop, tokens_of_none strtok_nil, parse_tokens]
  | succ n ih =>
    intro s fuel cmd hn hf
    obtain ⟨k, rfl⟩ : ∃ k, fuel = k + 1 := ⟨fuel - 1, by omega⟩
    rcases hst : strtok s with ⟨_ | t, r⟩
    · simp [parse_loop, tokens_of_none hst, parse_tokens]
    · have hlt := strtok_length_lt hst
      rw [tokens_of_some hst]
      have ihr : ∀ c, parse_loop k (strtok r).1 (strtok r).2 c =
          some (parse_tokens (tokens r) c) := fun c => ih r k c (by omega) (by omega)
      by_cases h1 : t = "<"
      · subst h1
        rcases hsr : strtok r with ⟨_ | f, r1⟩
        · rw [tokens_of_none hsr]
          simp [parse_loop, hsr, parse_tokens]
        · have hlt1 := strtok_length_lt hsr
          rw [tokens_of_some hsr, parse_tokens_lt_cons]
          simp only [parse_loop, hsr, if_true]
          exact ih r1 k _ (by omega) (by omega)
      · by_cases h2 : t = ">"
        · subst h2
          rcases hsr : strtok r with ⟨_ | f, r1⟩
          · rw [tokens_of_none hsr]
            simp [parse_loop, hsr, parse_tokens]
          · have hlt1 := strtok_length_lt hsr
            rw [tokens_of_some hsr, parse_tokens_gt_cons]
            simp only [parse_loop, hsr, h1, if_true, if_false]
            exact ih r1 k _ (by omega) (by omega)
        · by_cases h3 : t = "&"
          · subst h3
            rcases hsr : strtok r with ⟨_ | f, r1⟩
            · rw [tokens_of_none hsr]
              simp [parse_loop, hsr, parse_tokens]
            · have hlt1 := strtok_length_lt hsr
              rw [tokens_of_some hsr, parse_tokens_amp_cons]
              simp only [parse_loop, hsr, h1, h2, if_true, if_false]
              cases store_arg cmd "&" with
              | none => rfl
              | some c1 => exact ih r1 k c1 (by omega) (by omega)
          · rw [parse_tokens_ordinary_cons ⟨h1, h2, h3⟩]
            simp only [parse_loop, h1, h2, h3, if_false]
            cases store_arg cmd t with
            | none => rfl
            | some c1 => exact ihr c1

/-- The call `parse_input` always finishes, and does on the token sequence
of the line what `parse_tokens` describes. -/
theorem parse_input_eq (line : String) :
    parse_input line = some (parse_tokens (tokens line.data) calloc_command_line) :=
  parse_loop_eq line.data.length line.data _ _ (le_refl _) (Nat.lt_succ_self _)

/-- Induction over a token list for a loop that consumes one or two tokens
per turn. -/
theorem token_pair_induction {P : List String → Prop} (h0 : P [])
    (h1 : ∀ t, P [t]) (h2 : ∀ t u ts, P ts → P (u :: ts) → P (t :: u :: ts)) :
    ∀ ts, P ts := by
  have key : ∀ ts, P ts ∧ ∀ t, P (t :: ts) := by
    intro ts
    induction ts with
    | nil => exact ⟨h0, h1⟩
    | cons u ts ih => exact ⟨ih.2 u, fun t => h2 t u ts ih.1 (ih.2 u)⟩
  exact fun ts => (key ts).1

theorem not_ordinary {t : String} (h : ¬ ordinary t) : t = "<" ∨ t = ">" ∨ t = "&" := by
  unfold ordinary at h
  by_cases h1 : t = "<"
  · exact Or.inl h1
  · by_cases h2 : t = ">"
    · exact Or.inr (Or.inl h2)
    · by_cases h3 : t = "&"
      · exact Or.inr (Or.inr h3)
      · exact absurd ⟨h1, h2, h3⟩ h

theorem command_line_argv_le (cmd : command_line) : cmd.argv.length ≤ MAX_ARGS + 1 :=
  cmd.argv_fits

/-- While no operator is left waiting and the stored tokens fit `argv`, the
loop reads a prefix of the tokens without fault, stores what `stores` lists
and leaves `is_bg` as it was. -/
theorem parse_tokens_prefix : ∀ (ts : List String) (cmd : command_line),
    pending ts = none → cmd.argv.length + (stores ts).length ≤ MAX_ARGS + 1 →
    ∃ c, c.argv = cmd.argv ++ stores ts ∧ c.is_bg = cmd.is_bg ∧
      ∀ rest, parse_tokens (ts ++ rest) cmd = parse_tokens rest c := by
  intro ts
  induction ts using token_pair_induction with
  | h0 =>
    intro cmd _ _
    exact ⟨cmd, by simp [stores], rfl, fun rest => rfl⟩
  | h1 t =>
    intro cmd hp hfit
    have ht : ordinary t := by
      by_contra hn
      simp [pending, hn] at hp
    simp only [stores, ht, if_true, List.length_singleton] at hfit ⊢
    obtain ⟨c, hc, hargv, _, _, hbg⟩ := store_arg_fits cmd t (by omega)
    refine ⟨c, hargv, hbg, fun rest => ?_⟩
    rw [List.singleton_append, parse_tokens_ordinary_cons ht, hc]
  | h2 t u ts ih1 ih2 =>
    intro cmd hp hfit
    by_cases ht : ordinary t
    · simp only [pending, ht, if_true] at hp
      simp only [stores, ht, if_true, List.length_cons] at hfit ⊢
      obtain ⟨c1, hc1, hargv1, _, _, hbg1⟩ := store_arg_fits cmd t (by omega)
      obtain ⟨c, hargv, hbg, hrest⟩ := ih2 c1 hp (by rw [hargv1, List.length_append]; simp; omega)
      refine ⟨c, by rw [hargv, hargv1]; simp, by rw [hbg, hbg1], fun rest => ?_⟩
      rw [List.cons_append, parse_tokens_ordinary_cons ht, hc1]
      exact hrest rest
    · simp only [pending, ht, if_false] at hp
      rcases not_ordinary ht with rfl | rfl | rfl
      · simp only [stores, ht, if_false] at hfit ⊢
        have hne : ¬ ("<" : String) = "&" := by decide
        simp only [hne, if_false] at hfit ⊢
        obtain ⟨c, hargv, hbg, hrest⟩ := ih1 { cmd with input_file := some u } hp hfit
        refine ⟨c, hargv, hbg, fun rest => ?_⟩
        rw [List.cons_append, List.cons_append, parse_tokens_lt_cons]
        exact hrest rest
      · simp only [stores, ht, if_false] at hfit ⊢
        have hne : ¬ (">" : String) = "&" := by decide
        simp only [hne, if_false] at hfit ⊢
        obtain ⟨c, hargv, hbg, hrest⟩ := ih1 { cmd with output_file := some u } hp hfit
        refine ⟨c, hargv, hbg, fun rest => ?_⟩
        rw [List.cons_append, List.cons_append, parse_tokens_gt_cons]
        exact hrest rest
      · simp only [stores, ht, if_false, if_true, List.length_cons] at hfit ⊢
        obtain ⟨c1, hc1, hargv1, _, _, hbg1⟩ := store_arg_fits cmd "&" (by omega)
        obtain ⟨c, hargv, hbg, hrest⟩ := ih1 c1 hp (by rw [hargv1, List.length_append]; simp; omega)
        refine ⟨c, by rw [hargv, hargv1]; simp, by rw [hbg, hbg1], fun rest => ?_⟩
        rw [List.cons_append, List.cons_append, parse_tokens_amp_cons, hc1]
        exact hrest rest

/-- An operator left waiting is the last token, and the tokens before it
leave none waiting and store the same arguments. -/
theorem pending_some : ∀ (ts : List String) (op : String), pending ts = some op →
    ¬ ordinary op ∧ ∃ ts1, ts = ts1 ++ [op] ∧ pending ts1 = none ∧ stores ts1 = stores ts := by
  intro ts
  induction ts using token_pair_induction with
  | h0 => intro op h; simp [pending] at h
  | h1 t =>
    intro op h
    by_cases ht : ordinary t
    · simp [pending, ht] at h
    · simp only [pending, ht, if_false, Option.some.injEq] at h
      subst h
      exact ⟨ht, [], rfl, rfl, by simp [stores, ht]⟩
  | h2 t u ts ih1 ih2 =>
    intro op h
    by_cases ht : ordinary t
    · simp only [pending, ht, if_true] at h
      obtain ⟨hop, ts1, e, hp, hs⟩ := ih2 op h
      refine ⟨hop, t :: ts1, by rw [e]; rfl, ?_, ?_⟩
      · cases ts1 with
        | nil => simp [pending, ht]
        | cons v vs => simp only [pending, ht, if_true]; exact hp
      · cases ts1 with
        | nil =>
          have : stores (u :: ts) = [] := by rw [← hs]; rfl
          simp [stores, ht, this]
        | cons v vs =>
          simp only [stores, ht, if_true]
          rw [hs]
    · simp only [pending, ht, if_false] at h
      obtain ⟨hop, ts1, e, hp, hs⟩ := ih1 op h
      refine ⟨hop, t :: u :: ts1, by rw [e]; rfl, ?_, ?_⟩
      · simp only [pending, ht, if_false]; exact hp
      · simp only [stores, ht, if_false]
        rw [hs]

theorem pending_ordinary (a : List String) (h : ∀ t ∈ a, ordinary t) :
    pending a = none ∧ stores a = a := by
  induction a using token_pair_induction with
  | h0 => exact ⟨rfl, rfl⟩
  | h1 t =>
    have ht := h t (by simp)
    simp [pending, stores, ht]
  | h2 t u ts _ ih2 =>
    have ht := h t (by simp)
    have hu : ∀ x ∈ u :: ts, ordinary x := fun x hx => h x (List.mem_cons_of_mem _ hx)
    obtain ⟨e1, e2⟩ := ih2 hu
    simp only [pending, stores, ht, if_true]
    exact ⟨e1, by rw [e2]⟩

/-- With more ordinary tokens than free slots the loop stores past the end
of `argv`. -/
theorem parse_tokens_overflow : ∀ (a rest : List String) (cmd : command_line),
    (∀ t ∈ a, ordinary t) → MAX_ARGS + 1 < cmd.argv.length + a.length →
    parse_tokens (a ++ rest) cmd = .argv_overflow := by
  intro a
  induction a with
  | nil =>
    intro rest cmd _ h
    have := cmd.argv_fits
    simp at h
    omega
  | cons t a ih =>
    intro rest cmd hord h
    have ht : ordinary t := hord t (List.mem_cons_self _ _)
    rw [List.cons_append, parse_tokens_ordinary_cons ht]
    by_cases hfit : cmd.argv.length < MAX_ARGS + 1
    · obtain ⟨c, hc, hargv, _⟩ := store_arg_fits cmd t hfit
      rw [hc]
      apply ih rest c (fun x hx => hord x (List.mem_cons_of_mem _ hx))
      rw [hargv, List.length_append]
      simp only [List.length_cons, List.length_singleton, List.length_nil] at h ⊢
      omega
    · rw [store_arg_full cmd t hfit]

/-- Ordinary tokens that fit `argv` are stored one after the other and
change nothing else. -/
theorem parse_tokens_ordinary_append : ∀ (a : List String) (cmd : command_line),
    (∀ t ∈ a, ordinary t) → cmd.argv.length + a.length ≤ MAX_ARGS + 1 →
    ∃ c, c.argv = cmd.argv ++ a ∧ c.input_file = cmd.input_file ∧
      c.output_file = cmd.output_file ∧ c.is_bg = cmd.is_bg ∧
      ∀ rest, parse_tokens (a ++ rest) cmd = parse_tokens rest c := by
  intro a
  induction a with
  | nil =>
    intro cmd _ _
    exact ⟨cmd, by simp, rfl, rfl, rfl, fun rest => rfl⟩
  | cons t a ih =>
    intro cmd hord hfit
    have ht : ordinary t := hord t (List.mem_cons_self _ _)
    simp only [List.length_cons] at hfit
    obtain ⟨c1, hc1, hargv1, hin1, hout1, hbg1⟩ := store_arg_fits cmd t (by omega)
    obtain ⟨c, hargv, hin, hout, hbg, hrest⟩ :=
      ih c1 (fun x hx => hord x (List.mem_cons_of_mem _ hx))
        (by rw [hargv1, List.length_append]; simp; omega)
    refine ⟨c, by rw [hargv, hargv1]; simp, by rw [hin, hin1], by rw [hout, hout1],
      by rw [hbg, hbg1], fun rest => ?_⟩
    rw [List.cons_append, parse_tokens_ordinary_cons ht, hc1]
    exact hrest rest

/-- Unless a `<` or `>` is left waiting for its target, and as long as the
stored tokens fit `argv`, the loop returns a command, and its arguments are
what `stores` lists. -/
theorem parse_tokens_returns (ts : List String) (cmd : command_line)
    (h1 : pending ts ≠ some "<") (h2 : pending ts ≠ some ">")
    (hfit : cmd.argv.length + (stores ts).length ≤ MAX_ARGS + 1) :
    ∃ c, parse_tokens ts cmd = .returned c ∧ c.argv = cmd.argv ++ stores ts := by
  cases hp : pending ts with
  | none =>
    obtain ⟨c, hargv, _, hrest⟩ := parse_tokens_prefix ts cmd hp hfit
    refine ⟨c, ?_, hargv⟩
    have := hrest []
    rw [List.append_nil] at this
    rw [this]
    rfl
  | some op =>
    obtain ⟨hop, ts1, e, hp1, hs⟩ := pending_some ts op hp
    have hamp : op = "&" := by
      rcases not_ordinary hop with h | h | h
      · rw [hp, h] at h1; exact absurd rfl h1
      · rw [hp, h] at h2; exact absurd rfl h2
      · exact h
    subst hamp
    obtain ⟨c, hargv, _, hrest⟩ := parse_tokens_prefix ts1 cmd hp1 (by rw [hs]; exact hfit)
    refine ⟨{ c with is_bg := true }, ?_, by rw [← hs]; exact hargv⟩
    rw [e, hrest, parse_tokens_amp_last]

/-! ## The trailing `&` -/

/-- C3: on the line `echo a & b`, which has no `<` or `>` and does not end in
`&`, the tokens are `echo`, `a`, `&`, `b`, but `parse_input` returns
`argv = [echo, a, &]`: the token `b` that follows the `&` is not stored. -/
theorem token_after_amp_dropped :
    tokens "echo a & b\n".data = ["echo", "a", "&", "b"] ∧
    parse_input "echo a & b\n" = some (.returned
      { argv := ["echo", "a", "&"], input_file := none, output_file := none, is_bg := false }) := by
  decide

/-! ## Redirections -/

/-- C4: a line of ordinary tokens (none of them `<`, `>` or `&`), no more of
them than `argv` has slots, with one pair `< f` and one pair `> g`, in either
order, parses to a command whose `argv` is the ordinary tokens in order, with
`input_file = f`, `output_file = g` and `is_bg = false`. -/
theorem redirect_pairs (line : String) (a b c : List String) (f g : String)
    (ha : ∀ t ∈ a, t ≠ "<" ∧ t ≠ ">" ∧ t ≠ "&")
    (hb : ∀ t ∈ b, t ≠ "<" ∧ t ≠ ">" ∧ t ≠ "&")
    (hc : ∀ t ∈ c, t ≠ "<" ∧ t ≠ ">" ∧ t ≠ "&")
    (hfit : (a ++ b ++ c).length ≤ MAX_ARGS + 1)
    (hline : tokens line.data = a ++ "<" :: f :: (b ++ ">" :: g :: c) ∨
      tokens line.data = a ++ ">" :: g :: (b ++ "<" :: f :: c)) :
    ∃ cmd, parse_input line = some (.returned cmd) ∧ cmd.argv = a ++ b ++ c ∧
      cmd.input_file = some f ∧ cmd.output_file = some g ∧ cmd.is_bg = false := by
  simp only [List.length_append] at hfit
  obtain ⟨c1, hargv1, hin1, hout1, hbg1, hrest1⟩ :=
    parse_tokens_ordinary_append a calloc_command_line ha (by simp [calloc_command_line]; omega)
  have hlen1 : c1.argv.length = a.length := by rw [hargv1]; simp [calloc_command_line]
  rw [parse_input_eq]
  rcases hline with h | h
  · obtain ⟨c2, hargv2, hin2, hout2, hbg2, hrest2⟩ :=
      parse_tokens_ordinary_append b { c1 with input_file := some f } hb
        (by show c1.argv.length + b.length ≤ MAX_ARGS + 1; omega)
    have hlen2 : c2.argv.length = a.length + b.length := by
      rw [hargv2, List.length_append]; show c1.argv.length + b.length = _; omega
    obtain ⟨c3, hargv3, hin3, hout3, hbg3, hrest3⟩ :=
      parse_tokens_ordinary_append c { c2 with output_file := some g } hc
        (by show c2.argv.length + c.length ≤ MAX_ARGS + 1; omega)
    refine ⟨c3, ?_, ?_, ?_, ?_, ?_⟩
    · have e3 := hrest3 []
      rw [List.append_nil] at e3
      rw [h, hrest1, parse_tokens_lt_cons, hrest2, parse_tokens_gt_cons, e3]
      rfl
    · rw [hargv3]; show c2.argv ++ c = _; rw [hargv2]; show c1.argv ++ b ++ c = _
      rw [hargv1]; simp [calloc_command_line]
    · rw [hin3]; show c2.input_file = _; rw [hin2]
    · rw [hout3]
    · rw [hbg3]; show c2.is_bg = _; rw [hbg2]; show c1.is_bg = _; rw [hbg1]; rfl
  · obtain ⟨c2, hargv2, hin2, hout2, hbg2, hrest2⟩ :=
      parse_tokens_ordinary_append b { c1 with output_file := some g } hb
        (by show c1.argv.length + b.length ≤ MAX_ARGS + 1; omega)
    have hlen2 : c2.argv.length = a.length + b.length := by
      rw [hargv2, List.length_append]; show c1.argv.length + b.length = _; omega
    obtain ⟨c3, hargv3, hin3, hout3, hbg3, hrest3⟩ :=
      parse_tokens_ordinary_append c { c2 with input_file := some f } hc
        (by show c2.argv.length + c.length ≤ MAX_ARGS + 1; omega)
    refine ⟨c3, ?_, ?_, ?_, ?_, ?_⟩
    · have e3 := hrest3 []
      rw [List.append_nil] at e3
      rw [h, hrest1, parse_tokens_gt_cons, hrest2, parse_tokens_lt_cons, e3]
      rfl
    · rw [hargv3]; show c2.argv ++ c = _; rw [hargv2]; show c1.argv ++ b ++ c = _
      rw [hargv1]; simp [calloc_command_line]
    · rw [hin3]
    · rw [hout3]; show c2.output_file = _; rw [hout2]
    · rw [hbg3]; show c2.is_bg = _; rw [hbg2]; show c1.is_bg = _; rw [hbg1]; rfl

theorem redirect_pairs_witness :
    ∃ cmd, parse_input "ls -l < in.txt > out.txt\n" = some (.returned cmd) ∧
      cmd.argv = ["ls", "-l"] ++ [] ++ [] ∧ cmd.input_file = some "in.txt" ∧
      cmd.output_file = some "out.txt" ∧ cmd.is_bg = false :=
  redirect_pairs "ls -l < in.txt > out.txt\n" ["ls", "-l"] [] [] "in.txt" "out.txt"
    (by decide) (by decide) (by decide) (by decide) (Or.inl (by decide))

/-! ## Blank lines and comments -/

theorem tokens_of_delims {l : List Char} (h : ∀ c ∈ l, c = ' ' ∨ c = '\n') : tokens l = [] := by
  have hd : l.dropWhile is_delim = [] := by
    rw [List.dropWhile_eq_nil_iff]
    intro c hc
    rcases h c hc with rfl | rfl <;> decide
  have : strtok l = (none, []) := by unfold strtok; rw [hd]
  exact tokens_of_none this

theorem ordinary_of_hash {t : String} (h : t.data.head? = some '#') : ordinary t := by
  refine ⟨?_, ?_, ?_⟩ <;> (intro e; subst e; revert h; decide)

theorem stores_ordinary_cons {t : String} (h : ordinary t) (rest : List String) :
    ∃ l, stores (t :: rest) = t :: l := by
  cases rest with
  | nil => exact ⟨[], by simp [stores, h]⟩
  | cons u r => exact ⟨stores (u :: r), by simp [stores, h]⟩

/-- C5, as stated, fails twice: the line of one tab and the newline consists
of whitespace only, but `strtok` does not split at a tab, so `parse_input`
returns `argc = 1` and the turn of the loop forks a child and changes
`last_status`; and for the comment line `#x` the command returned by
`parse_input` has `argc = 1`, not 0. -/
theorem blank_or_comment_argc_nonzero :
    (∀ c ∈ "\t\n".data, c = ' ' ∨ c = '\t' ∨ c = '\n') ∧
    parse_input "\t\n" = some (.returned
      { argv := ["\t"], input_file := none, output_file := none, is_bg := false }) ∧
    main_loop_body linux_wait_macros os_exec_failed 0 0 "\t\n" = some
      { last_status := 1,
        effects := [effect.fork_child 100
          { sigint := .SIG_DFL, sigtstp := .SIG_IGN, input_file := none, output_file := none,
            argv := ["\t"] }, effect.waitpid 100],
        exited := false } ∧
    (tokens "#x\n".data).head? = some "#x" ∧
    parse_input "#x\n" = some (.returned
      { argv := ["#x"], input_file := none, output_file := none, is_bg := false }) := by
  decide

/-- C5, amended: for a line that is empty or consists only of spaces and
newlines, `parse_input` returns the command with `argc = 0`; for a line whose
first token begins with `#`, on which no `<` or `>` is left waiting for its
target at the end of the line and whose stored arguments fit the
`MAX_ARGS + 1` slots of `argv`, `parse_input` returns a command that has that
token as `argv[0]`; in both cases the turn of the loop skips dispatch: no
effect at all (no built-in, no child) and `last_status` as before. -/
theorem blank_or_comment_skipped (W : wait_macros) (os : os_reply)
    (foreground_only last_status : Int) (line : String) :
    ((∀ c ∈ line.data, c = ' ' ∨ c = '\n') →
      (∃ cmd, parse_input line = some (.returned cmd) ∧ cmd.argc = 0) ∧
      main_loop_body W os foreground_only last_status line =
        some { last_status := last_status, effects := [], exited := false }) ∧
    (∀ t : String, (tokens line.data).head? = some t → t.data.head? = some '#' →
      pending (tokens line.data) ≠ some "<" → pending (tokens line.data) ≠ some ">" →
      (stores (tokens line.data)).length ≤ MAX_ARGS + 1 →
      (∃ cmd, parse_input line = some (.returned cmd) ∧ cmd.argv.head? = some t) ∧
      main_loop_body W os foreground_only last_status line =
        some { last_status := last_status, effects := [], exited := false }) := by
  constructor
  · intro h
    have hp : parse_input line = some (.returned calloc_command_line) := by
      rw [parse_input_eq, tokens_of_delims h]; rfl
    refine ⟨⟨calloc_command_line, hp, rfl⟩, ?_⟩
    simp [main_loop_body, hp, dispatch, calloc_command_line, command_line.argc]
  · intro t ht hhash h1 h2 hfit
    obtain ⟨rest, hrest⟩ : ∃ rest, tokens line.data = t :: rest := by
      cases hts : tokens line.data with
      | nil => rw [hts] at ht; simp at ht
      | cons u rest =>
        rw [hts] at ht
        simp only [List.head?_cons, Option.some.injEq] at ht
        exact ⟨rest, by rw [ht]⟩
    obtain ⟨cmd, hcmd, hargv⟩ := parse_tokens_returns (tokens line.data) calloc_command_line
      h1 h2 (by simpa [calloc_command_line] using hfit)
    obtain ⟨l, hl⟩ := stores_ordinary_cons (ordinary_of_hash hhash) rest
    have hargv2 : cmd.argv = t :: l := by
      rw [hargv, hrest, hl]; simp [calloc_command_line]
    have hp : parse_input line = some (.returned cmd) := by rw [parse_input_eq, hcmd]
    have hh : starts_with_hash cmd = true := by
      simp [starts_with_hash, hargv2, hhash]
    exact ⟨⟨cmd, hp, by rw [hargv2]; rfl⟩, by simp [main_loop_body, hp, dispatch, hh]⟩

theorem blank_or_comment_skipped_witness :
    ((∃ cmd, parse_input "  \n" = some (.returned cmd) ∧ cmd.argc = 0) ∧
      main_loop_body linux_wait_macros os_exec_failed 0 7 "  \n" =
        some { last_status := 7, effects := [], exited := false }) ∧
    ((∃ cmd, parse_input "#list files &\n" = some (.returned cmd) ∧
        cmd.argv.head? = some "#list") ∧
      main_loop_body linux_wait_macros os_exec_failed 0 7 "#list files &\n" =
        some { last_status := 7, effects := [], exited := false }) :=
  ⟨(blank_or_comment_skipped linux_wait_macros os_exec_failed 0 7 "  \n").1 (by decide),
   (blank_or_comment_skipped linux_wait_macros os_exec_failed 0 7 "#list files &\n").2
      "#list" (by decide) (by decide) (by decide) (by decide) (by decide)⟩

/-! ## A redirection operator without a target -/

/-- C8: on the lines `cat <` and `cat >` the call `strtok(NULL, " \n")` after
the operator returns NULL and `parse_input` passes it to `strdup`; no error is
reported and no state of the shell is defined after the turn. -/
theorem dangling_redirect_strdup_null :
    parse_input "cat <\n" = some .strdup_null ∧
    parse_input "cat >\n" = some .strdup_null ∧
    main_loop_body linux_wait_macros os_exec_failed 0 0 "cat <\n" = none := by
  decide

/-! ## The number of arguments -/

theorem strtok_arg (s : List Char) : strtok ('a' :: ' ' :: s) = (some "a", s) := by
  simp [strtok, is_delim, List.dropWhile, List.takeWhile]

theorem tokens_many_args (n : Nat) : tokens (many_args n) = List.replicate n "a" := by
  induction n with
  | zero => decide
  | succ n ih =>
    rw [many_args, tokens_of_some (strtok_arg _), ih]
    rfl

theorem length_many_args (n : Nat) : (many_args n).length = 2 * n + 1 := by
  induction n with
  | zero => rfl
  | succ n ih => simp only [many_args, List.length_cons, ih]; omega

theorem ordinary_replicate (n : Nat) : ∀ t ∈ List.replicate n "a", ordinary t := by
  intro t ht
  rw [List.eq_of_mem_replicate ht]
  decide

/-- C9: the lines of 513 and of 514 one-letter arguments have 1027 and 1029
characters, so `fgets` delivers them whole. On the first `parse_input` fills
all `MAX_ARGS + 1` slots of `argv`: `argc` is 513, more than `MAX_ARGS`, and no
slot is left for the NULL that `execvp` needs. On the second the store of the
last argument has index 513 and lies past the end of `argv`. -/
theorem argc_exceeds_max_args :
    (many_args 513).length ≤ INPUT_LENGTH - 1 ∧
    (∃ cmd, parse_input (String.mk (many_args 513)) = some (.returned cmd) ∧
      cmd.argv = List.replicate 513 "a" ∧ cmd.argc = 513 ∧ MAX_ARGS < cmd.argc) ∧
    (many_args 514).length ≤ INPUT_LENGTH - 1 ∧
    parse_input (String.mk (many_args 514)) = some .argv_overflow := by
  refine ⟨by rw [length_many_args]; decide, ?_, by rw [length_many_args]; decide, ?_⟩
  · obtain ⟨c, hargv, _, _, _, hrest⟩ :=
      parse_tokens_ordinary_append (List.replicate 513 "a") calloc_command_line
        (ordinary_replicate 513)
        (by rw [List.length_replicate]; decide)
    have hargv2 : c.argv = List.replicate 513 "a" := by
      rw [hargv]; exact List.nil_append _
    have hlen : c.argc = 513 := by
      show c.argv.length = 513
      rw [hargv2, List.length_replicate]
    refine ⟨c, ?_, hargv2, hlen, by rw [hlen]; decide⟩
    have e := hrest []
    rw [List.append_nil] at e
    rw [parse_input_eq, tokens_many_args, e]
    rfl
  · have e := parse_tokens_overflow (List.replicate 514 "a") [] calloc_command_line
      (ordinary_replicate 514) (by rw [List.length_replicate]; decide)
    rw [List.append_nil] at e
    rw [parse_input_eq, tokens_many_args, e]

/-! ## Built-in commands -/

/-- C1: the turn of the loop for the line `status` prints the exit value and
then goes on to `fork`: a child is created to run a program named `status`,
the shell waits for it, and `last_status` changes from 0 to the exit code 1
of the child; the turn for `cd /nonexistent` does the same after the failed
`chdir`. -/
theorem builtin_falls_through_to_fork :
    main_loop_body linux_wait_macros os_exec_failed 0 0 "status\n" = some
      { last_status := 1,
        effects := [effect.print_exit_value 0,
          effect.fork_child 100
            { sigint := .SIG_DFL, sigtstp := .SIG_IGN, input_file := none, output_file := none,
              argv := ["status"] },
          effect.waitpid 100],
        exited := false } ∧
    main_loop_body linux_wait_macros { os_exec_failed with chdir_ok := false } 0 0
        "cd /nonexistent\n" = some
      { last_status := 1,
        effects := [effect.chdir_to (some "/nonexistent"), effect.perror "cd failed",
          effect.fork_child 100
            { sigint := .SIG_DFL, sigtstp := .SIG_IGN, input_file := none, output_file := none,
              argv := ["cd", "/nonexistent"] },
          effect.waitpid 100],
        exited := false } := by
  decide

/-! ## External commands -/

theorem dispatch_external {cmd : command_line} (h : is_external cmd) (W : wait_macros)
    (os : os_reply) (foreground_only last_status : Int) :
    dispatch W os foreground_only last_status cmd =
      spawn W os foreground_only last_status cmd [] := by
  obtain ⟨h0, h1, h2, h3, h4⟩ := h
  simp [dispatch, h0, h1, h2, builtin_effects, h3, h4]

theorem spawn_effects_extend (W : wait_macros) (os : os_reply) (foreground_only last_status : Int)
    (cmd : command_line) (pre : List effect) :
    ∃ rest, (spawn W os foreground_only last_status cmd pre).effects = pre ++ rest := by
  obtain ⟨ok, fr, w⟩ := os
  cases fr <;> simp only [spawn] <;> split_ifs <;>
    first
    | exact ⟨_, rfl⟩
    | exact ⟨[], (List.append_nil _).symm⟩

theorem status_prints_value (W : wait_macros) (os : os_reply) (foreground_only v : Int)
    (cmd : command_line) (h : cmd.argv.head? = some "status") :
    ∃ rest, (dispatch W os foreground_only v cmd).effects = effect.print_exit_value v :: rest := by
  obtain ⟨rest, hrest⟩ := spawn_effects_extend W os foreground_only v cmd
    [effect.print_exit_value v]
  refine ⟨rest, ?_⟩
  have hne : cmd.argc ≠ 0 := by
    intro e
    have : cmd.argv = [] := List.length_eq_zero.mp e
    rw [this] at h
    simp at h
  have hh : starts_with_hash cmd = false := by
    simp only [starts_with_hash, h]
    decide
  have hx : cmd.argv.head? ≠ some "exit" := by rw [h]; decide
  have hb : builtin_effects os v cmd = [effect.print_exit_value v] := by
    have hcd : ¬ (some "status" : Option String) = some "cd" := by decide
    simp only [builtin_effects, h, hcd, if_false, if_true]
  simp only [dispatch, hne, hh, hx, hb, false_or, if_false]
  simpa using hrest

theorem spawn_foreground (W : wait_macros) (os : os_reply) (foreground_only last_status : Int)
    (cmd : command_line) (pid : Nat) (hfg : cmd.is_bg = false ∨ foreground_only ≠ 0)
    (hfork : os.fork_ret = .child_created pid) :
    (W.WIFEXITED os.wait_status = true →
      (spawn W os foreground_only last_status cmd []).last_status =
          W.WEXITSTATUS os.wait_status ∧
        notices (spawn W os foreground_only last_status cmd []) = []) ∧
    (W.WIFEXITED os.wait_status = false → W.WIFSIGNALED os.wait_status = true →
      (spawn W os foreground_only last_status cmd []).last_status =
          W.WTERMSIG os.wait_status ∧
        notices (spawn W os foreground_only last_status cmd []) =
          [effect.print_terminated (W.WTERMSIG os.wait_status)]) := by
  have hbg : (if foreground_only ≠ 0 ∧ cmd.is_bg = true then false else cmd.is_bg) = false := by
    rcases hfg with h | h
    · simp [h]
    · by_cases hb : cmd.is_bg = true
      · simp [h, hb]
      · simp [hb]
  constructor
  · intro he
    simp [spawn, hbg, hfork, he, notices]
  · intro he hs
    simp [spawn, hbg, hfork, he, hs, notices]

/-- C6: for an external command run in the foreground (not requested for the
background, or `foreground_only` set) whose child was created, after the wait
`last_status` is `WEXITSTATUS` of the status word when `WIFEXITED` holds, with
no termination notice, and is `WTERMSIG` when the child was killed by a signal,
with exactly one notice `terminated by signal S`; with the Linux status word
this is the exit code `N` for every `0 ≤ N ≤ 255` and the signal `S` for every
`1 ≤ S ≤ 126`; and the next turn, if its command is `status`, first prints
that `last_status`. -/
theorem foreground_status_recorded (W : wait_macros) (os : os_reply)
    (foreground_only last_status : Int) (cmd : command_line) (pid : Nat)
    (hext : is_external cmd) (hfg : cmd.is_bg = false ∨ foreground_only ≠ 0)
    (hfork : os.fork_ret = .child_created pid) :
    (W.WIFEXITED os.wait_status = true →
      (dispatch W os foreground_only last_status cmd).last_status =
          W.WEXITSTATUS os.wait_status ∧
        notices (dispatch W os foreground_only last_status cmd) = []) ∧
    (W.WIFEXITED os.wait_status = false → W.WIFSIGNALED os.wait_status = true →
      (dispatch W os foreground_only last_status cmd).last_status =
          W.WTERMSIG os.wait_status ∧
        notices (dispatch W os foreground_only last_status cmd) =
          [effect.print_terminated (W.WTERMSIG os.wait_status)]) ∧
    (∀ N : Int, 0 ≤ N → N ≤ 255 →
      (dispatch linux_wait_macros { os with wait_status := 256 * N } foreground_only
          last_status cmd).last_status = N ∧
        notices (dispatch linux_wait_macros { os with wait_status := 256 * N } foreground_only
          last_status cmd) = []) ∧
    (∀ S : Int, 1 ≤ S → S ≤ 126 →
      (dispatch linux_wait_macros { os with wait_status := S } foreground_only
          last_status cmd).last_status = S ∧
        notices (dispatch linux_wait_macros { os with wait_status := S } foreground_only
          last_status cmd) = [effect.print_terminated S]) ∧
    (∀ (os2 : os_reply) (fo2 : Int) (cmd2 : command_line), cmd2.argv.head? = some "status" →
      ∃ rest, (dispatch W os2 fo2 (dispatch W os foreground_only last_status cmd).last_status
          cmd2).effects =
        effect.print_exit_value (dispatch W os foreground_only last_status cmd).last_status
          :: rest) := by
  refine ⟨?_, ?_, ?_, ?_, ?_⟩
  · rw [dispatch_external hext]
    exact (spawn_foreground W os foreground_only last_status cmd pid hfg hfork).1
  · rw [dispatch_external hext]
    exact (spawn_foreground W os foreground_only last_status cmd pid hfg hfork).2
  · intro N h0 h1
    rw [dispatch_external hext]
    have h := (spawn_foreground linux_wait_macros { os with wait_status := 256 * N }
      foreground_only last_status cmd pid hfg hfork).1
    have e1 : linux_wait_macros.WIFEXITED (256 * N) = true := by
      simp only [linux_wait_macros, beq_iff_eq]; omega
    have e2 : linux_wait_macros.WEXITSTATUS (256 * N) = N := by
      simp only [linux_wait_macros]; omega
    have h2 := h e1
    rw [e2] at h2
    exact h2
  · intro S h0 h1
    rw [dispatch_external hext]
    have h := (spawn_foreground linux_wait_macros { os with wait_status := S }
      foreground_only last_status cmd pid hfg hfork).2
    have e1 : linux_wait_macros.WIFEXITED S = false := by
      simp only [linux_wait_macros, beq_eq_false_iff_ne, ne_eq]; omega
    have e2 : linux_wait_macros.WIFSIGNALED S = true := by
      simp only [linux_wait_macros, decide_eq_true_eq]; omega
    have e3 : linux_wait_macros.WTERMSIG S = S := by
      simp only [linux_wait_macros]; omega
    have h2 := h e1 e2
    rw [e3] at h2
    exact h2
  · intro os2 fo2 cmd2 h2
    exact status_prints_value W os2 fo2 _ cmd2 h2

theorem foreground_status_recorded_witness :
    is_external { argv := ["ls"], input_file := none, output_file := none, is_bg := false } ∧
    (dispatch linux_wait_macros
        { chdir_ok := true, fork_ret := .child_created 100, wait_status := 768 } 0 0
        { argv := ["ls"], input_file := none, output_file := none, is_bg := false }).last_status
      = 3 :=
  ⟨by unfold is_external; decide,
   ((foreground_status_recorded linux_wait_macros
      { chdir_ok := true, fork_ret := .child_created 100, wait_status := 768 } 0 0
      { argv := ["ls"], input_file := none, output_file := none, is_bg := false } 100
      (by unfold is_external; decide) (Or.inl rfl) rfl).1 (by decide)).1⟩

/-! ## Background and foreground-only mode -/

theorem spawn_background (W : wait_macros) (os : os_reply) (foreground_only last_status : Int)
    (cmd : command_line) (pid : Nat) (hbg : cmd.is_bg = true) (hfo : foreground_only = 0)
    (hfork : os.fork_ret = .child_created pid) :
    spawn W os foreground_only last_status cmd [] =
      { last_status := last_status,
        effects := [effect.fork_child pid
          { sigint := disposition.SIG_IGN, sigtstp := disposition.SIG_IGN,
            input_file := cmd.input_file, output_file := cmd.output_file, argv := cmd.argv }],
        exited := false } := by
  simp [spawn, hbg, hfo, hfork]

theorem spawn_waits (W : wait_macros) (os : os_reply) (foreground_only last_status : Int)
    (cmd : command_line) (pid : Nat) (hfg : ¬ (cmd.is_bg = true ∧ foreground_only = 0))
    (hfork : os.fork_ret = .child_created pid) :
    ∃ tail, (spawn W os foreground_only last_status cmd []).effects =
        effect.fork_child pid
          { sigint := disposition.SIG_DFL, sigtstp := disposition.SIG_IGN,
            input_file := cmd.input_file, output_file := cmd.output_file, argv := cmd.argv }
          :: effect.waitpid pid :: tail ∧
      (tail = [] ∨ tail = [effect.print_terminated (W.WTERMSIG os.wait_status)]) := by
  have hbg : (if foreground_only ≠ 0 ∧ cmd.is_bg = true then false else cmd.is_bg) = false := by
    by_cases hb : cmd.is_bg = true
    · have hfo : foreground_only ≠ 0 := fun e => hfg ⟨hb, e⟩
      simp [hb, hfo]
    · simp [hb]
  by_cases he : W.WIFEXITED os.wait_status = true
  · exact ⟨[], by simp [spawn, hbg, hfork, he], Or.inl rfl⟩
  · by_cases hs : W.WIFSIGNALED os.wait_status = true
    · exact ⟨[effect.print_terminated (W.WTERMSIG os.wait_status)],
        by simp [spawn, hbg, hfork, he, hs], Or.inr rfl⟩
    · exact ⟨[], by simp [spawn, hbg, hfork, he, hs], Or.inl rfl⟩

/-- C7: for an external command whose child was created, whatever the value of
`foreground_only`: the turn runs the command in the background (one child that
runs the command and ignores SIGINT, no `waitpid`, `last_status` untouched)
exactly when the parser set `is_bg` and `foreground_only` is 0, and runs it in
the foreground (a child that runs the command with the default SIGINT,
`waitpid` for that child) exactly when not; and when `foreground_only` is not 0
the turn is the turn of the same command with `is_bg` cleared: the shell waits
for the child and records the exit code or the terminating signal in
`last_status`. -/
theorem background_iff_requested_and_allowed (W : wait_macros) (os : os_reply)
    (foreground_only last_status : Int) (cmd : command_line) (pid : Nat)
    (hext : is_external cmd) (hfork : os.fork_ret = .child_created pid) :
    (runs_in_background cmd (dispatch W os foreground_only last_status cmd) ↔
      (cmd.is_bg = true ∧ foreground_only = 0)) ∧
    (runs_in_foreground cmd (dispatch W os foreground_only last_status cmd) ↔
      ¬ (cmd.is_bg = true ∧ foreground_only = 0)) ∧
    (cmd.is_bg = true ∧ foreground_only = 0 →
      dispatch W os foreground_only last_status cmd =
        { last_status := last_status,
          effects := [effect.fork_child pid
            { sigint := disposition.SIG_IGN, sigtstp := disposition.SIG_IGN,
              input_file := cmd.input_file, output_file := cmd.output_file,
              argv := cmd.argv }],
          exited := false }) ∧
    (¬ (cmd.is_bg = true ∧ foreground_only = 0) →
      ∃ tail, (dispatch W os foreground_only last_status cmd).effects =
        effect.fork_child pid
          { sigint := disposition.SIG_DFL, sigtstp := disposition.SIG_IGN,
            input_file := cmd.input_file, output_file := cmd.output_file, argv := cmd.argv }
          :: effect.waitpid pid :: tail ∧
        (tail = [] ∨ tail = [effect.print_terminated (W.WTERMSIG os.wait_status)])) ∧
    (foreground_only ≠ 0 →
      dispatch W os foreground_only last_status cmd =
        dispatch W os foreground_only last_status { cmd with is_bg := false } ∧
      effect.waitpid pid ∈ (dispatch W os foreground_only last_status cmd).effects ∧
      (W.WIFEXITED os.wait_status = true →
        (dispatch W os foreground_only last_status cmd).last_status =
          W.WEXITSTATUS os.wait_status) ∧
      (W.WIFEXITED os.wait_status = false → W.WIFSIGNALED os.wait_status = true →
        (dispatch W os foreground_only last_status cmd).last_status =
          W.WTERMSIG os.wait_status)) := by
  have hext2 : is_external { cmd with is_bg := false } := hext
  rw [dispatch_external hext, dispatch_external hext2]
  have hback : cmd.is_bg = true ∧ foreground_only = 0 →
      runs_in_background cmd (spawn W os foreground_only last_status cmd []) ∧
      ¬ runs_in_foreground cmd (spawn W os foreground_only last_status cmd []) := by
    intro h
    rw [spawn_background W os foreground_only last_status cmd pid h.1 h.2 hfork]
    refine ⟨⟨pid, rfl⟩, ?_⟩
    rintro ⟨p, tail, e, _⟩
    simp at e
  have hfore : ¬ (cmd.is_bg = true ∧ foreground_only = 0) →
      runs_in_foreground cmd (spawn W os foreground_only last_status cmd []) ∧
      ¬ runs_in_background cmd (spawn W os foreground_only last_status cmd []) := by
    intro h
    obtain ⟨tail, e, ht⟩ := spawn_waits W os foreground_only last_status cmd pid h hfork
    refine ⟨⟨pid, tail, e, ?_⟩, ?_⟩
    · intro x hx
      rcases ht with ht | ht
      · rw [ht] at hx; simp at hx
      · rw [ht] at hx
        simp only [List.mem_singleton] at hx
        exact ⟨_, hx⟩
    · rintro ⟨p, e2⟩
      rw [e] at e2
      simp at e2
  refine ⟨?_, ?_, ?_, ?_, ?_⟩
  · constructor
    · intro hb
      by_contra hn
      exact (hfore hn).2 hb
    · exact fun h => (hback h).1
  · constructor
    · intro hf hn
      exact (hback hn).2 hf
    · exact fun h => (hfore h).1
  · intro h
    exact spawn_background W os foreground_only last_status cmd pid h.1 h.2 hfork
  · intro h
    exact spawn_waits W os foreground_only last_status cmd pid h hfork
  · intro hfo
    have hfg : ¬ (cmd.is_bg = true ∧ foreground_only = 0) := fun h => hfo h.2
    obtain ⟨tail, e, _⟩ := spawn_waits W os foreground_only last_status cmd pid hfg hfork
    have hst := spawn_foreground W os foreground_only last_status cmd pid (Or.inr hfo) hfork
    refine ⟨?_, ?_, fun he => (hst.1 he).1, fun he hs => (hst.2 he hs).1⟩
    · cases hb : cmd.is_bg <;> simp [spawn, hfo, hb]
    · rw [e]; simp

theorem background_iff_requested_and_allowed_witness :
    is_external
      { argv := ["sleep", "5"], input_file := none, output_file := none, is_bg := true } ∧
    (runs_in_background
        { argv := ["sleep", "5"], input_file := none, output_file := none, is_bg := true }
        (dispatch linux_wait_macros os_exec_failed 0 0
          { argv := ["sleep", "5"], input_file := none, output_file := none, is_bg := true }) ↔
      (true = true ∧ (0 : Int) = 0)) ∧
    (runs_in_foreground
        { argv := ["sleep", "5"], input_file := none, output_file := none, is_bg := true }
        (dispatch linux_wait_macros os_exec_failed 1 0
          { argv := ["sleep", "5"], input_file := none, output_file := none, is_bg := true }) ↔
      ¬ (true = true ∧ (1 : Int) = 0)) :=
  ⟨by unfold is_external; decide,
   (background_iff_requested_and_allowed linux_wait_macros os_exec_failed 0 0
      { argv := ["sleep", "5"], input_file := none, output_file := none, is_bg := true } 100
      (by unfold is_external; decide) rfl).1,
   (background_iff_requested_and_allowed linux_wait_macros os_exec_failed 1 0
      { argv := ["sleep", "5"], input_file := none, output_file := none, is_bg := true } 100
      (by unfold is_external; decide) rfl).2.1⟩

/-! ## The mode toggle -/

/-- C10: from `foreground_only = 0` and from `foreground_only = 1`, one delivery
of SIGTSTP flips the value and writes exactly one notice (the entering notice
from 0, the exiting notice from 1), and two deliveries restore the value and
write exactly two notices, in the order given by the starting value. -/
theorem handle_SIGTSTP_involution (s : signal_state)
    (h : s.foreground_only = 0 ∨ s.foreground_only = 1) :
    (handle_SIGTSTP s).foreground_only = 1 - s.foreground_only ∧
    (handle_SIGTSTP (handle_SIGTSTP s)).foreground_only = s.foreground_only ∧
    (handle_SIGTSTP s).written =
      s.written ++ [if s.foreground_only = 0 then msg_entering else msg_exiting] ∧
    (handle_SIGTSTP (handle_SIGTSTP s)).written =
      s.written ++ (if s.foreground_only = 0 then [msg_entering, msg_exiting]
        else [msg_exiting, msg_entering]) := by
  obtain ⟨fo, w⟩ := s
  rcases h with h | h <;> simp only at h <;> subst h <;> simp [handle_SIGTSTP]

theorem handle_SIGTSTP_involution_witness :
    (handle_SIGTSTP (handle_SIGTSTP { foreground_only := 1, written := [] })).foreground_only = 1 ∧
    (handle_SIGTSTP (handle_SIGTSTP { foreground_only := 1, written := [] })).written =
      [] ++ (if (1 : Int) = 0 then [msg_entering, msg_exiting] else [msg_exiting, msg_entering]) :=
  ⟨(handle_SIGTSTP_involution { foreground_only := 1, written := [] } (Or.inr rfl)).2.1,
   (handle_SIGTSTP_involution { foreground_only := 1, written := [] } (Or.inr rfl)).2.2.2⟩

end Smallsh
